import Mathlib

/-!
Verification of the SplitwisePro ledger and balance engine.

The definitions below are a shallow embedding of the TypeScript source:
* `balances`, `groupBalances`, `getTotalBalance`, `settleGroup`,
  `settleBetweenUsers`, `deleteExpense`, category aggregation from
  `src/contexts/AppContext.tsx`;
* `updateExpense`, `updateGroup`, `deleteGroup` from
  `src/services/StorageService.ts`;
* the `handleSave` validation flow from `src/screens/AddExpenseScreen.tsx`.

Currency amounts (JS `number`) are modelled as `Rat`; identifiers and
category tags as `String`; `Date` timestamps as `Nat`.  JS `Map` /
plain-object accumulators are modelled as insertion-ordered association
lists, matching the iteration order of `Map.values()` and of string keys
of an object.
-/

namespace SplitwisePro

/-- One entry of `Expense.participants` (types/index.ts `ExpenseParticipant`). -/
structure ExpenseParticipant where
  userId : String
  name : String
  amount : Rat
  isSettled : Bool
  deriving DecidableEq

/-- types/index.ts `SplitType`. -/
inductive SplitType where
  | equal
  | custom
  | percentage
  deriving DecidableEq

/-- types/index.ts `Expense`; `Date` fields are modelled as `Nat` ticks,
`groupId` and `description` as options (absent = `undefined`). -/
structure Expense where
  id : String
  title : String
  amount : Rat
  category : String
  description : Option String
  paidBy : String
  groupId : Option String
  participants : List ExpenseParticipant
  splitType : SplitType
  currency : String
  isSettled : Bool
  createdAt : Nat
  updatedAt : Nat
  deriving DecidableEq

/-- types/index.ts `GroupMember` (fields used by the engine). -/
structure GroupMember where
  userId : String
  name : String
  deriving DecidableEq

/-- types/index.ts `Group` (fields used by the engine; at runtime groups
carry a `currency` set by `addGroup`, though the declared interface omits
it, hence an option). -/
structure Group where
  id : String
  name : String
  members : List GroupMember
  friendIds : List String
  currency : Option String
  deriving DecidableEq

/-- types/index.ts `User` (fields used by the engine; `defaultCurrency`
is set on the generated default user). -/
structure User where
  id : String
  name : String
  defaultCurrency : Option String
  deriving DecidableEq

/-- types/index.ts `Balance`: derived row of the balance views. -/
structure Balance where
  userId : String
  name : String
  amount : Rat
  deriving DecidableEq

/-- The in-memory state held by `AppProvider` (`expenses`, `groups`, `user`). -/
structure AppState where
  expenses : List Expense
  groups : List Group
  user : Option User
  deriving DecidableEq

/-- JS `a || b` on an optional string: `undefined` and `""` fall through. -/
def jsOrStr (a : Option String) (b : String) : String :=
  match a with
  | some s => if s = "" then b else s
  | none => b

/-- JS truthiness of an optional string (`!!x`): `undefined` and `""` are falsy. -/
def jsTruthy (o : Option String) : Bool :=
  match o with
  | some s => !(s == "")
  | none => false

/-- JS `String.prototype.trim`: strip leading and trailing whitespace
(executable model of `.trim()`). -/
def jsTrim (s : String) : String :=
  String.mk (((s.data.dropWhile Char.isWhitespace).reverse.dropWhile Char.isWhitespace).reverse)

/-! ## Balance engine (AppContext.tsx, `balances` memo, lines 94–117)

The JS accumulator is a `Map<string, Balance>`; `Map.set` on an existing
key keeps its position and `Map.values()` returns insertion order, so the
map is modelled as a `List Balance` where an existing key is updated in
place and a new key is appended. -/

/-- `amountPaid`: the expense's total amount exactly when the participant
is the payer, else zero (AppContext.tsx line 108). -/
def amountPaidOf (e : Expense) (p : ExpenseParticipant) : Rat :=
  if e.paidBy == p.userId then e.amount else 0

/-- `netDelta = participant.amount − amountPaid` (AppContext.tsx line 109). -/
def netDeltaOf (e : Expense) (p : ExpenseParticipant) : Rat :=
  p.amount - amountPaidOf e p

/-- One step of the inner `forEach`: fold one participant of expense `e`
into the accumulated balance list.  An existing key is updated in place
(the stored name snapshot is kept); a new key starts from amount `0` and
is appended. -/
def balStep (e : Expense) (acc : List Balance) (p : ExpenseParticipant) : List Balance :=
  if acc.any (fun b => b.userId == p.userId) then
    acc.map (fun b =>
      if b.userId == p.userId then { b with amount := b.amount + netDeltaOf e p } else b)
  else
    acc ++ [{ userId := p.userId, name := p.name, amount := 0 + netDeltaOf e p }]

/-- Fold one expense's participant list into the accumulator. -/
def balExpense (acc : List Balance) (e : Expense) : List Balance :=
  e.participants.foldl (balStep e) acc

/-- `balances` memo: filter out settled expenses, then accumulate
`netDelta = share − amountPaid` per participant. -/
def balances (es : List Expense) : List Balance :=
  (es.filter (fun e => !e.isSettled)).foldl balExpense []

/-- `getTotalBalance` (AppContext.tsx lines 342–344). -/
def getTotalBalance (es : List Expense) : Rat :=
  (balances es).foldl (fun sum b => sum + b.amount) 0

/-! ### Observation helpers (not in the source; used to state properties). -/

/-- The amount recorded for `uid` in a balance list (`0` when absent). -/
def lookAmt (bs : List Balance) (uid : String) : Rat :=
  match bs.find? (fun b => b.userId == uid) with
  | some b => b.amount
  | none => 0

/-- The display name recorded for `uid` in a balance list. -/
def lookName (bs : List Balance) (uid : String) : Option String :=
  (bs.find? (fun b => b.userId == uid)).map (fun b => b.name)

/-- The net delta that expense `e` contributes to participant `uid`:
summed over the occurrences of `uid` in `e.participants`, each
contributing `share − (amount if payer else 0)` as in `balStep`. -/
def expDelta (e : Expense) (uid : String) : Rat :=
  (e.participants.map (fun p => if p.userId == uid then netDeltaOf e p else 0)).sum

/-- Specification-side net amount for `uid`: the sum of `expDelta` over
the unsettled (qualifying) expenses. -/
def specNet (es : List Expense) (uid : String) : Rat :=
  ((es.filter (fun e => !e.isSettled)).map (fun e => expDelta e uid)).sum

/-- `uid` appears in the participant list of some qualifying (unsettled)
expense. -/
def appearsIn (es : List Expense) (uid : String) : Prop :=
  ∃ e ∈ es, e.isSettled = false ∧ ∃ p ∈ e.participants, p.userId = uid

instance (es : List Expense) (uid : String) : Decidable (appearsIn es uid) := by
  unfold appearsIn
  infer_instance

/-- The display name attached to the first occurrence of `uid` in a
participant stream. -/
def firstNameIn (ps : List ExpenseParticipant) (uid : String) : Option String :=
  (ps.find? (fun p => p.userId == uid)).map (fun p => p.name)

/-- The name snapshot the balance view should show for `uid`: the one on
the first occurrence of `uid` across the unsettled expenses, in
expense-list order and participant order within an expense. -/
def firstNameFor (es : List Expense) (uid : String) : Option String :=
  firstNameIn ((es.filter (fun e => !e.isSettled)).flatMap (fun e => e.participants)) uid

/-- Sum of the amounts of a balance list. -/
def sumAmt (bs : List Balance) : Rat :=
  (bs.map Balance.amount).sum

/-- The total net delta one expense feeds into the balance accumulator:
the sum over its participant occurrences of `netDelta`. -/
def expenseTotalDelta (e : Expense) : Rat :=
  (e.participants.map (fun p => netDeltaOf e p)).sum

/-! ## Mutating operations (AppContext.tsx) -/

/-- `addExpense` (AppContext.tsx lines 153–169): appends the new record;
id and timestamps are generated by the caller side, passed in here
already filled in. -/
def addExpense (st : AppState) (e : Expense) : AppState :=
  { st with expenses := st.expenses ++ [e] }

/-- `deleteExpense` (AppContext.tsx lines 192–200 /
StorageService.deleteExpense): keep every record whose id differs. -/
def deleteExpense (es : List Expense) (expenseId : String) : List Expense :=
  es.filter (fun e => e.id != expenseId)

/-- `settleGroup` (AppContext.tsx lines 202–215): collect the ids of the
group's unsettled expenses, then mark every expense with one of those ids
as settled, refreshing its update timestamp. -/
def groupExpenseIds (es : List Expense) (groupId : String) : List String :=
  (es.filter (fun e => e.groupId == some groupId && !e.isSettled)).map (fun e => e.id)

def settleGroup (es : List Expense) (groupId : String) (now : Nat) : List Expense :=
  es.map (fun e =>
    if (groupExpenseIds es groupId).contains e.id then
      { e with isSettled := true, updatedAt := now }
    else e)

/-- The synthesized settlement record of `settleBetweenUsers`
(AppContext.tsx lines 217–250): payer = `fromUserId` with share = amount,
payee share = 0, both participant flags and the expense's settled flag
true; names resolved through the group's member list with JS `||`
fallbacks. -/
def settlementExpenseOf (st : AppState) (groupId fromUserId toUserId : String)
    (amount : Rat) (newId : String) (now : Nat) : Expense :=
  let payerName := jsOrStr
    ((st.groups.find? (fun g => g.id == groupId)).bind
      (fun g => (g.members.find? (fun m => m.userId == fromUserId)).map (fun m => m.name)))
    (jsOrStr (st.user.map (fun u => u.name)) "Payer")
  let payeeName := jsOrStr
    ((st.groups.find? (fun g => g.id == groupId)).bind
      (fun g => (g.members.find? (fun m => m.userId == toUserId)).map (fun m => m.name)))
    "Payee"
  { id := newId
    title := "Settlement"
    amount := amount
    category := "other"
    description := some ("Settlement between " ++ payerName ++ " and " ++ payeeName)
    paidBy := fromUserId
    groupId := some groupId
    participants := [
      { userId := fromUserId, name := payerName, amount := amount, isSettled := true },
      { userId := toUserId, name := payeeName, amount := 0, isSettled := true }]
    splitType := SplitType.custom
    currency := jsOrStr ((st.groups.find? (fun g => g.id == groupId)).bind (fun g => g.currency))
      (jsOrStr (st.user.bind (fun u => u.defaultCurrency)) "USD")
    isSettled := true
    createdAt := now
    updatedAt := now }

/-- `settleBetweenUsers` (AppContext.tsx lines 217–250): append the
synthesized settlement expense via `addExpense`.  No validation of the
amount and no existence check of the group or the two participants is
performed. -/
def settleBetweenUsers (st : AppState) (groupId fromUserId toUserId : String)
    (amount : Rat) (newId : String) (now : Nat) : AppState :=
  addExpense st (settlementExpenseOf st groupId fromUserId toUserId amount newId now)

/-! ## Storage operations (StorageService.ts) -/

/-- The persisted collections. -/
structure Store where
  expenses : List Expense
  groups : List Group
  deriving DecidableEq

/-- `StorageService.updateExpense` (lines 55–68): find the first expense
with the id; when present, shallow-merge the partial update into it (the
merge is modelled as the resulting record transformer `upd`); when absent
(`findIndex === -1`) nothing is written and no error is raised. -/
def updateExpenseStore (es : List Expense) (expenseId : String)
    (upd : Expense → Expense) : List Expense :=
  match es with
  | [] => []
  | e :: rest =>
    if e.id == expenseId then upd e :: rest
    else e :: updateExpenseStore rest expenseId upd

/-- `StorageService.updateGroup` (lines 113–126): same first-match merge;
silent no-op when the id is absent. -/
def updateGroupStore (gs : List Group) (groupId : String)
    (upd : Group → Group) : List Group :=
  match gs with
  | [] => []
  | g :: rest =>
    if g.id == groupId then upd g :: rest
    else g :: updateGroupStore rest groupId upd

/-- `StorageService.deleteGroup` (lines 128–142): remove the group and,
as a cascade, every expense whose `groupId` equals the deleted id. -/
def deleteGroupStore (st : Store) (groupId : String) : Store :=
  { groups := st.groups.filter (fun g => g.id != groupId),
    expenses := st.expenses.filter (fun e => e.groupId != some groupId) }

/-! ## Category aggregation (AppContext.tsx lines 352–383) -/

/-- One step of `categoryTotals[category] = (categoryTotals[category] || 0)
+ expense.amount` on a plain JS object, modelled as an insertion-ordered
association list. -/
def catStep (acc : List (String × Rat)) (c : String) (a : Rat) : List (String × Rat) :=
  if acc.any (fun q => q.1 == c) then
    acc.map (fun q => if q.1 == c then (q.1, q.2 + a) else q)
  else
    acc ++ [(c, 0 + a)]

/-- `getExpensesByCategory`: totals over all expenses. -/
def getExpensesByCategory (es : List Expense) : List (String × Rat) :=
  es.foldl (fun acc e => catStep acc e.category e.amount) []

/-- `getGroupExpensesByCategory`: totals over expenses with a truthy
group identifier (`!!expense.groupId`). -/
def getGroupExpensesByCategory (es : List Expense) : List (String × Rat) :=
  (es.filter (fun e => jsTruthy e.groupId)).foldl
    (fun acc e => catStep acc e.category e.amount) []

/-- `getPersonalExpensesByCategory`: totals over expenses without a
truthy group identifier (`!expense.groupId`). -/
def getPersonalExpensesByCategory (es : List Expense) : List (String × Rat) :=
  (es.filter (fun e => !jsTruthy e.groupId)).foldl
    (fun acc e => catStep acc e.category e.amount) []

/-- Sum of the per-category totals of a view. -/
def catTotalSum (l : List (String × Rat)) : Rat :=
  (l.map Prod.snd).sum

/-! ## Expense saving (AddExpenseScreen.tsx `handleSave`, lines 107–190) -/

/-- types/index.ts `ExpenseSplit`. -/
structure ExpenseSplit where
  participantId : String
  amount : Rat
  deriving DecidableEq

/-- `calculateSplitAmounts` (AddExpenseScreen.tsx lines 98–105). -/
def calculateSplitAmounts (splitType : SplitType) (customSplits : List ExpenseSplit)
    (totalAmount : Rat) (participantIds : List String) : List ExpenseSplit :=
  match splitType with
  | SplitType.equal =>
    participantIds.map (fun i => { participantId := i, amount := totalAmount / participantIds.length })
  | SplitType.custom =>
    customSplits.filter (fun s => participantIds.contains s.participantId)
  | SplitType.percentage => []

/-- The `expenseParticipants` construction in `handleSave`: resolve each
split's display name from the available-participant list, falling back to
"Unknown". -/
def mkParticipants (avail : List (String × String)) (splits : List ExpenseSplit) :
    List ExpenseParticipant :=
  splits.map (fun s =>
    { userId := s.participantId
      name := jsOrStr ((avail.find? (fun q => q.1 == s.participantId)).map (fun q => q.2)) "Unknown"
      amount := s.amount
      isSettled := false })

/-- The input fields read by `handleSave`.  `amount` models
`Number(amount)` after the numeric-validity check. -/
structure SaveInput where
  title : String
  amount : Rat
  category : String
  description : String
  selectedGroup : Option String
  participants : List String
  customSplits : List ExpenseSplit
  payer : String
  splitType : SplitType
  currency : String
  deriving DecidableEq

/-- `handleSave` (add mode): the sequence of validations, then the
`addExpense` append.  Each failed validation shows an alert and returns
with the store untouched. -/
def handleSave (es : List Expense) (inp : SaveInput) (avail : List (String × String))
    (currentUserId : String) (newId : String) (now : Nat) : List Expense :=
  if jsTrim inp.title == "" then es
  else if inp.amount ≤ 0 then es
  else if jsTruthy inp.selectedGroup && inp.participants.isEmpty then es
  else if inp.splitType == SplitType.custom &&
      decide ((1 : Rat)/100 < |(inp.customSplits.map (fun s => s.amount)).sum - inp.amount|) then es
  else if inp.splitType == SplitType.custom &&
      !(inp.participants.filter
        (fun pid => !(inp.customSplits.any (fun s => s.participantId == pid)))).isEmpty then es
  else
    let selectedParticipantIds :=
      if jsTruthy inp.selectedGroup then inp.participants else [currentUserId]
    let splitAmounts :=
      calculateSplitAmounts inp.splitType inp.customSplits inp.amount selectedParticipantIds
    es ++ [{
      id := newId
      title := jsTrim inp.title
      amount := inp.amount
      category := inp.category
      description := if jsTrim inp.description == "" then none else some (jsTrim inp.description)
      paidBy := inp.payer
      groupId := if jsTruthy inp.selectedGroup then inp.selectedGroup else none
      participants := mkParticipants avail splitAmounts
      splitType := inp.splitType
      currency := inp.currency
      isSettled := false
      createdAt := now
      updatedAt := now }]

/-! ## Test fixtures -/

/-- Fixture: Alice pays 100, split 50/50 with Bob (spec §8 scenario). -/
def exAB : Expense :=
  { id := "e1", title := "Dinner", amount := 100, category := "food",
    description := none, paidBy := "a", groupId := some "g1",
    participants := [
      { userId := "a", name := "Alice", amount := 50, isSettled := false },
      { userId := "b", name := "Bob", amount := 50, isSettled := false }],
    splitType := SplitType.equal, currency := "USD", isSettled := false,
    createdAt := 0, updatedAt := 0 }

/-- Fixture: a degenerate expense whose payer occurs twice among the
participants; shares sum to the amount and the payer is listed, yet its
occurrences each subtract the full paid amount. -/
def exDupPayer : Expense :=
  { id := "d1", title := "Dup", amount := 10, category := "other",
    description := none, paidBy := "x", groupId := none,
    participants := [
      { userId := "x", name := "X", amount := 5, isSettled := false },
      { userId := "x", name := "X", amount := 5, isSettled := false }],
    splitType := SplitType.custom, currency := "USD", isSettled := false,
    createdAt := 0, updatedAt := 0 }

/-- Fixture: Yara fronted 5 for Xavier (share 5 to Xavier, 0 to herself),
so Xavier owes 5 and Yara is owed 5. -/
def exYX : Expense :=
  { id := "e2", title := "Taxi", amount := 5, category := "transport",
    description := none, paidBy := "y", groupId := some "g",
    participants := [
      { userId := "y", name := "Yara", amount := 0, isSettled := false },
      { userId := "x", name := "Xavier", amount := 5, isSettled := false }],
    splitType := SplitType.custom, currency := "USD", isSettled := false,
    createdAt := 0, updatedAt := 0 }

/-- Fixture state holding just `exYX` and no groups. -/
def stYX : AppState :=
  { expenses := [exYX], groups := [], user := none }

/-- Fixture: a personal expense (no group identifier). -/
def exPersonal : Expense :=
  { id := "e3", title := "Coffee", amount := 4, category := "food",
    description := none, paidBy := "y",
    groupId := none,
    participants := [{ userId := "y", name := "Yara", amount := 4, isSettled := false }],
    splitType := SplitType.equal, currency := "USD", isSettled := false,
    createdAt := 0, updatedAt := 0 }

/-- Fixture group with id "g". -/
def grpG : Group :=
  { id := "g", name := "Trip", members := [], friendIds := [], currency := none }

/-- Fixture persisted store: one group expense, one personal expense, one
group. -/
def stC8 : Store :=
  { expenses := [exYX, exPersonal], groups := [grpG] }

/-- Fixture save input: custom split summing to 99.995 against amount 100. -/
def inp995 : SaveInput :=
  { title := "Trip", amount := 100, category := "travel", description := "",
    selectedGroup := some "g", participants := ["x"],
    customSplits := [{ participantId := "x", amount := 99995/1000 }],
    payer := "x", splitType := SplitType.custom, currency := "USD" }

/-- Fixture save input: custom split summing to 95 against amount 100. -/
def inp95 : SaveInput :=
  { title := "Trip", amount := 100, category := "travel", description := "",
    selectedGroup := some "g", participants := ["x"],
    customSplits := [{ participantId := "x", amount := 95 }],
    payer := "x", splitType := SplitType.custom, currency := "USD" }

/-! ## Invariants of the balance-map fold -/

lemma userId_update (e : Expense) (p : ExpenseParticipant) (b : Balance) :
    ((if b.userId == p.userId then { b with amount := b.amount + netDeltaOf e p } else b) :
      Balance).userId = b.userId := by
  by_cases h : (b.userId == p.userId) = true <;> simp [h]

lemma keys_balStep (e : Expense) (acc : List Balance) (p : ExpenseParticipant) :
    (balStep e acc p).map Balance.userId =
      if acc.any (fun b => b.userId == p.userId) then acc.map Balance.userId
      else acc.map Balance.userId ++ [p.userId] := by
  by_cases h : acc.any (fun b => b.userId == p.userId) = true
  · rw [if_pos h]
    unfold balStep
    rw [if_pos h, List.map_map]
    exact List.map_congr_left (fun b _ => userId_update e p b)
  · rw [if_neg h]
    unfold balStep
    rw [if_neg h]
    simp

lemma mem_keys_balStep (e : Expense) (acc : List Balance) (p : ExpenseParticipant)
    (x : String) :
    x ∈ (balStep e acc p).map Balance.userId ↔
      x ∈ acc.map Balance.userId ∨ x = p.userId := by
  rw [keys_balStep]
  by_cases h : acc.any (fun b => b.userId == p.userId) = true
  · simp only [h, if_true]
    constructor
    · exact fun hx => Or.inl hx
    · rintro (hx | rfl)
      · exact hx
      · rcases List.any_eq_true.mp h with ⟨b, hb, hbe⟩
        exact List.mem_map.mpr ⟨b, hb, eq_of_beq hbe⟩
  · simp [h]

lemma nodup_keys_balStep (e : Expense) (acc : List Balance) (p : ExpenseParticipant)
    (h : (acc.map Balance.userId).Nodup) :
    ((balStep e acc p).map Balance.userId).Nodup := by
  rw [keys_balStep]
  by_cases hany : acc.any (fun b => b.userId == p.userId) = true
  · rwa [if_pos hany]
  · rw [if_neg hany]
    rw [List.nodup_append]
    refine ⟨h, List.nodup_singleton _, ?_⟩
    intro a ha hb
    simp only [List.mem_singleton] at hb
    subst hb
    rcases List.mem_map.mp ha with ⟨b, hbmem, hbid⟩
    have : acc.any (fun b => b.userId == p.userId) = true :=
      List.any_eq_true.mpr ⟨b, hbmem, beq_iff_eq.mpr hbid⟩
    exact hany this

lemma find?_map_keyPreserving (g : Balance → Balance) (hg : ∀ b, (g b).userId = b.userId)
    (acc : List Balance) (x : String) :
    (acc.map g).find? (fun b => b.userId == x) =
      (acc.find? (fun b => b.userId == x)).map g := by
  induction acc with
  | nil => rfl
  | cons b t ih =>
    simp only [List.map_cons, List.find?, hg b]
    cases h : (b.userId == x) with
    | true => rfl
    | false => exact ih

lemma any_keys_of_find? {acc : List Balance} {x : String} {b : Balance}
    (hf : acc.find? (fun b => b.userId == x) = some b) (y : String) (hxy : x = y) :
    acc.any (fun b => b.userId == y) = true := by
  subst hxy
  have hp := List.find?_some hf
  exact List.any_eq_true.mpr ⟨b, List.mem_of_find?_eq_some hf, by simpa using hp⟩

lemma not_key_of_any_false {acc : List Balance} {y : String}
    (hany : ¬ acc.any (fun b => b.userId == y) = true) :
    acc.find? (fun b => b.userId == y) = none := by
  cases hf : acc.find? (fun b => b.userId == y) with
  | none => rfl
  | some b => exact absurd (any_keys_of_find? hf y rfl) hany

lemma lookAmt_balStep (e : Expense) (acc : List Balance) (p : ExpenseParticipant)
    (x : String) :
    lookAmt (balStep e acc p) x =
      lookAmt acc x + (if p.userId == x then netDeltaOf e p else 0) := by
  unfold balStep
  by_cases hany : acc.any (fun b => b.userId == p.userId) = true
  · rw [if_pos hany]
    unfold lookAmt
    rw [find?_map_keyPreserving _ (userId_update e p) acc x]
    cases hf : acc.find? (fun b => b.userId == x) with
    | none =>
      have hne : ¬ (p.userId == x) = true := by
        intro hx
        have : acc.any (fun b => b.userId == x) = true := by
          rw [← eq_of_beq hx]; exact hany
        rcases List.any_eq_true.mp this with ⟨b, hb, hbe⟩
        have : (acc.find? (fun b => b.userId == x)).isSome :=
          List.find?_isSome.mpr ⟨b, hb, hbe⟩
        rw [hf] at this
        simp at this
      simp [hne]
    | some b =>
      have hbx : (b.userId == x) = true := by simpa using List.find?_some hf
      by_cases hbp : (b.userId == p.userId) = true
      · have hpx : (p.userId == x) = true := by
          rw [← eq_of_beq hbp]; exact hbx
        have hb' : b.userId = p.userId := eq_of_beq hbp
        simp [hpx, hb']
      · have hpx : ¬ (p.userId == x) = true := by
          intro hx
          apply hbp
          have h1 : b.userId = x := eq_of_beq hbx
          have h2 : p.userId = x := eq_of_beq hx
          rw [beq_iff_eq, h1, h2]
        have hb'' : ¬ b.userId = p.userId := fun h => hbp (beq_iff_eq.mpr h)
        simp [hpx, hb'']
  · rw [if_neg hany]
    unfold lookAmt
    rw [List.find?_append]
    cases hf : acc.find? (fun b => b.userId == x) with
    | some b =>
      have hne : ¬ (p.userId == x) = true := by
        intro hx
        exact hany (any_keys_of_find? hf p.userId (eq_of_beq hx).symm)
      simp [Option.or, hne]
    | none =>
      by_cases hpx : (p.userId == x) = true
      · simp [List.find?, Option.or, hpx]
      · simp [List.find?, Option.or, hpx]

lemma lookName_balStep (e : Expense) (acc : List Balance) (p : ExpenseParticipant)
    (x : String) :
    lookName (balStep e acc p) x =
      (lookName acc x).or (if p.userId == x then some p.name else none) := by
  unfold balStep
  by_cases hany : acc.any (fun b => b.userId == p.userId) = true
  · rw [if_pos hany]
    unfold lookName
    rw [find?_map_keyPreserving _ (userId_update e p) acc x]
    cases hf : acc.find? (fun b => b.userId == x) with
    | none =>
      have hne : ¬ (p.userId == x) = true := by
        intro hx
        have : acc.any (fun b => b.userId == x) = true := by
          rw [← eq_of_beq hx]; exact hany
        rcases List.any_eq_true.mp this with ⟨b, hb, hbe⟩
        have : (acc.find? (fun b => b.userId == x)).isSome :=
          List.find?_isSome.mpr ⟨b, hb, hbe⟩
        rw [hf] at this
        simp at this
      simp [hne, Option.or]
    | some b =>
      by_cases hbp : (b.userId == p.userId) = true
      · have hb' : b.userId = p.userId := eq_of_beq hbp
        simp [hb', Option.or]
      · have hb'' : ¬ b.userId = p.userId := fun h => hbp (beq_iff_eq.mpr h)
        simp [hb'', Option.or]
  · rw [if_neg hany]
    unfold lookName
    rw [List.find?_append]
    cases hf : acc.find? (fun b => b.userId == x) with
    | some b =>
      simp [Option.or]
    | none =>
      by_cases hpx : (p.userId == x) = true
      · simp [List.find?, Option.or, hpx]
      · simp [List.find?, Option.or, hpx]

/-! ### Lifting the step invariants through the folds -/

lemma lookAmt_foldParts (e : Expense) (ps : List ExpenseParticipant) (acc : List Balance)
    (x : String) :
    lookAmt (ps.foldl (balStep e) acc) x =
      lookAmt acc x + (ps.map (fun p => if p.userId == x then netDeltaOf e p else 0)).sum := by
  induction ps generalizing acc with
  | nil => simp
  | cons p ps ih =>
    simp only [List.foldl_cons, List.map_cons, List.sum_cons]
    rw [ih, lookAmt_balStep]
    ring

lemma lookAmt_balExpense (acc : List Balance) (e : Expense) (x : String) :
    lookAmt (balExpense acc e) x = lookAmt acc x + expDelta e x := by
  unfold balExpense expDelta
  exact lookAmt_foldParts e e.participants acc x

lemma lookAmt_foldExpenses (es : List Expense) (acc : List Balance) (x : String) :
    lookAmt (es.foldl balExpense acc) x =
      lookAmt acc x + (es.map (fun e => expDelta e x)).sum := by
  induction es generalizing acc with
  | nil => simp
  | cons e es ih =>
    simp only [List.foldl_cons, List.map_cons, List.sum_cons]
    rw [ih, lookAmt_balExpense]
    ring

/-- The amount recorded in the global balance view is exactly the
specification-side accumulated net. -/
lemma lookAmt_balances (es : List Expense) (x : String) :
    lookAmt (balances es) x = specNet es x := by
  unfold balances specNet
  rw [lookAmt_foldExpenses]
  simp [lookAmt]

lemma mem_keys_foldParts (e : Expense) (ps : List ExpenseParticipant) (acc : List Balance)
    (x : String) :
    x ∈ (ps.foldl (balStep e) acc).map Balance.userId ↔
      x ∈ acc.map Balance.userId ∨ ∃ p ∈ ps, p.userId = x := by
  induction ps generalizing acc with
  | nil => simp
  | cons p ps ih =>
    simp only [List.foldl_cons]
    rw [ih, mem_keys_balStep]
    constructor
    · rintro ((h | h) | ⟨q, hq, hqx⟩)
      · exact Or.inl h
      · exact Or.inr ⟨p, List.mem_cons_self p ps, h.symm⟩
      · exact Or.inr ⟨q, List.mem_cons_of_mem p hq, hqx⟩
    · rintro (h | ⟨q, hq, hqx⟩)
      · exact Or.inl (Or.inl h)
      · rcases List.mem_cons.mp hq with rfl | hq'
        · exact Or.inl (Or.inr hqx.symm)
        · exact Or.inr ⟨q, hq', hqx⟩

lemma mem_keys_foldExpenses (es : List Expense) (acc : List Balance) (x : String) :
    x ∈ (es.foldl balExpense acc).map Balance.userId ↔
      x ∈ acc.map Balance.userId ∨ ∃ e ∈ es, ∃ p ∈ e.participants, p.userId = x := by
  induction es generalizing acc with
  | nil => simp
  | cons e es ih =>
    simp only [List.foldl_cons]
    rw [ih]
    unfold balExpense
    rw [mem_keys_foldParts]
    constructor
    · rintro ((h | h) | ⟨f, hf, hp⟩)
      · exact Or.inl h
      · exact Or.inr ⟨e, List.mem_cons_self e es, h⟩
      · exact Or.inr ⟨f, List.mem_cons_of_mem e hf, hp⟩
    · rintro (h | ⟨f, hf, hp⟩)
      · exact Or.inl (Or.inl h)
      · rcases List.mem_cons.mp hf with rfl | hf'
        · exact Or.inl (Or.inr hp)
        · exact Or.inr ⟨f, hf', hp⟩

/-- The keys of the global balance view are exactly the participant
identifiers appearing in some unsettled expense. -/
lemma mem_keys_balances (es : List Expense) (x : String) :
    x ∈ (balances es).map Balance.userId ↔ appearsIn es x := by
  unfold balances appearsIn
  rw [mem_keys_foldExpenses]
  simp only [List.map_nil, List.not_mem_nil, false_or]
  constructor
  · rintro ⟨e, he, hp⟩
    rcases List.mem_filter.mp he with ⟨he', hset⟩
    refine ⟨e, he', ?_, hp⟩
    simpa using hset
  · rintro ⟨e, he, hset, hp⟩
    refine ⟨e, List.mem_filter.mpr ⟨he, ?_⟩, hp⟩
    simp [hset]

lemma nodup_keys_foldParts (e : Expense) (ps : List ExpenseParticipant) (acc : List Balance)
    (h : (acc.map Balance.userId).Nodup) :
    ((ps.foldl (balStep e) acc).map Balance.userId).Nodup := by
  induction ps generalizing acc with
  | nil => exact h
  | cons p ps ih =>
    simp only [List.foldl_cons]
    exact ih _ (nodup_keys_balStep e acc p h)

lemma nodup_keys_foldExpenses (es : List Expense) (acc : List Balance)
    (h : (acc.map Balance.userId).Nodup) :
    ((es.foldl balExpense acc).map Balance.userId).Nodup := by
  induction es generalizing acc with
  | nil => exact h
  | cons e es ih =>
    simp only [List.foldl_cons]
    exact ih _ (nodup_keys_foldParts e e.participants acc h)

/-- The global balance view never repeats a participant identifier. -/
lemma nodup_keys_balances (es : List Expense) :
    ((balances es).map Balance.userId).Nodup := by
  unfold balances
  exact nodup_keys_foldExpenses _ _ (by simp)

/-- In a balance list with distinct keys, looking up a member's own key
finds that member. -/
lemma find?_eq_of_mem_nodupKeys {bs : List Balance} {b : Balance}
    (hnd : (bs.map Balance.userId).Nodup) (hb : b ∈ bs) :
    bs.find? (fun c => c.userId == b.userId) = some b := by
  induction bs with
  | nil => cases hb
  | cons c t ih =>
    rcases List.mem_cons.mp hb with rfl | hbt
    · simp [List.find?]
    · have hnd' : (t.map Balance.userId).Nodup := (List.nodup_cons.mp hnd).2
      have hcb : ¬ c.userId = b.userId := by
        intro hEq
        have : c.userId ∈ t.map Balance.userId := hEq ▸ List.mem_map.mpr ⟨b, hbt, rfl⟩
        exact (List.nodup_cons.mp hnd).1 this
      have hcb' : ¬ (c.userId == b.userId) = true := fun h => hcb (eq_of_beq h)
      simp only [List.find?]
      rw [Bool.of_not_eq_true hcb']
      exact ih hnd' hbt

/-! ### Name snapshots -/

lemma firstNameIn_append (l1 l2 : List ExpenseParticipant) (uid : String) :
    firstNameIn (l1 ++ l2) uid = (firstNameIn l1 uid).or (firstNameIn l2 uid) := by
  unfold firstNameIn
  rw [List.find?_append]
  cases l1.find? (fun p => p.userId == uid) <;> rfl

lemma lookName_foldParts (e : Expense) (ps : List ExpenseParticipant) (acc : List Balance)
    (x : String) :
    lookName (ps.foldl (balStep e) acc) x = (lookName acc x).or (firstNameIn ps x) := by
  induction ps generalizing acc with
  | nil => simp [firstNameIn]
  | cons p ps ih =>
    simp only [List.foldl_cons]
    rw [ih, lookName_balStep, Option.or_assoc]
    congr 1
    unfold firstNameIn
    by_cases hpx : (p.userId == x) = true
    · simp [List.find?, hpx, Option.or]
    · simp [List.find?, hpx, Option.or]

lemma lookName_balExpense (acc : List Balance) (e : Expense) (x : String) :
    lookName (balExpense acc e) x = (lookName acc x).or (firstNameIn e.participants x) := by
  unfold balExpense
  exact lookName_foldParts e e.participants acc x

lemma lookName_foldExpenses (es : List Expense) (acc : List Balance) (x : String) :
    lookName (es.foldl balExpense acc) x =
      (lookName acc x).or (firstNameIn (es.flatMap (fun e => e.participants)) x) := by
  induction es generalizing acc with
  | nil => simp [firstNameIn]
  | cons e es ih =>
    simp only [List.foldl_cons, List.flatMap_cons]
    rw [ih, lookName_balExpense, Option.or_assoc, firstNameIn_append]

/-- The name shown in the global balance view is the first qualifying
snapshot. -/
lemma lookName_balances (es : List Expense) (x : String) :
    lookName (balances es) x = firstNameFor es x := by
  unfold balances firstNameFor
  rw [lookName_foldExpenses]
  simp [lookName, Option.or]

/-! ### Totals -/

lemma map_update_id {t : List Balance} {k : String} {δ : Rat}
    (h : ∀ b ∈ t, ¬ b.userId = k) :
    t.map (fun b => if b.userId == k then { b with amount := b.amount + δ } else b) = t := by
  have : ∀ b ∈ t,
      (if b.userId == k then ({ b with amount := b.amount + δ } : Balance) else b) = b := by
    intro b hb
    rw [if_neg (fun hc => h b hb (eq_of_beq hc))]
  calc t.map _ = t.map id := List.map_congr_left this
  _ = t := List.map_id t

lemma sumAmt_update {acc : List Balance} {k : String} {δ : Rat}
    (hnd : (acc.map Balance.userId).Nodup) (hk : k ∈ acc.map Balance.userId) :
    sumAmt (acc.map (fun b => if b.userId == k then { b with amount := b.amount + δ } else b)) =
      sumAmt acc + δ := by
  induction acc with
  | nil => simp at hk
  | cons c t ih =>
    have hnd' : (t.map Balance.userId).Nodup := (List.nodup_cons.mp hnd).2
    by_cases hc : c.userId = k
    · have hnot : ∀ b ∈ t, ¬ b.userId = k := by
        intro b hb hbk
        apply (List.nodup_cons.mp hnd).1
        rw [hc, ← hbk]
        exact List.mem_map.mpr ⟨b, hb, rfl⟩
      simp only [List.map_cons]
      rw [if_pos (beq_iff_eq.mpr hc), map_update_id hnot]
      unfold sumAmt
      simp
      ring
    · have hk' : k ∈ t.map Balance.userId := by
        rcases (by simpa using hk : k = c.userId ∨ ∃ a ∈ t, a.userId = k) with h | ⟨a, ha, hak⟩
        · exact absurd h.symm hc
        · exact List.mem_map.mpr ⟨a, ha, hak⟩
      simp only [List.map_cons]
      rw [if_neg (fun hb => hc (eq_of_beq hb))]
      unfold sumAmt at ih ⊢
      simp only [List.map_cons, List.sum_cons]
      rw [ih hnd' hk']
      ring

lemma sumAmt_balStep (e : Expense) (acc : List Balance) (p : ExpenseParticipant)
    (hnd : (acc.map Balance.userId).Nodup) :
    sumAmt (balStep e acc p) = sumAmt acc + netDeltaOf e p := by
  unfold balStep
  by_cases hany : acc.any (fun b => b.userId == p.userId) = true
  · rw [if_pos hany]
    rcases List.any_eq_true.mp hany with ⟨b, hb, hbe⟩
    have hk : p.userId ∈ acc.map Balance.userId :=
      List.mem_map.mpr ⟨b, hb, eq_of_beq hbe⟩
    exact sumAmt_update hnd hk
  · rw [if_neg hany]
    unfold sumAmt
    simp

lemma sumAmt_foldParts (e : Expense) (ps : List ExpenseParticipant) (acc : List Balance)
    (hnd : (acc.map Balance.userId).Nodup) :
    sumAmt (ps.foldl (balStep e) acc) =
      sumAmt acc + (ps.map (fun p => netDeltaOf e p)).sum := by
  induction ps generalizing acc with
  | nil => simp
  | cons p ps ih =>
    simp only [List.foldl_cons, List.map_cons, List.sum_cons]
    rw [ih _ (nodup_keys_balStep e acc p hnd), sumAmt_balStep e acc p hnd]
    ring

lemma sumAmt_foldExpenses (es : List Expense) (acc : List Balance)
    (hnd : (acc.map Balance.userId).Nodup) :
    sumAmt (es.foldl balExpense acc) = sumAmt acc + (es.map expenseTotalDelta).sum := by
  induction es generalizing acc with
  | nil => simp
  | cons e es ih =>
    simp only [List.foldl_cons, List.map_cons, List.sum_cons]
    have hnd2 : ((balExpense acc e).map Balance.userId).Nodup := by
      unfold balExpense
      exact nodup_keys_foldParts e e.participants acc hnd
    rw [ih (balExpense acc e) hnd2]
    have h2 : sumAmt (balExpense acc e) = sumAmt acc + expenseTotalDelta e := by
      unfold balExpense expenseTotalDelta
      exact sumAmt_foldParts e e.participants acc hnd
    rw [h2]
    ring

lemma foldl_add_amount (bs : List Balance) (c : Rat) :
    bs.foldl (fun sum b => sum + b.amount) c = c + sumAmt bs := by
  induction bs generalizing c with
  | nil => simp [sumAmt]
  | cons b t ih =>
    simp only [List.foldl_cons]
    rw [ih]
    unfold sumAmt
    simp
    ring

/-- `getTotalBalance` is the sum of each unsettled expense's total net
delta. -/
lemma getTotalBalance_eq (es : List Expense) :
    getTotalBalance es =
      ((es.filter (fun e => !e.isSettled)).map expenseTotalDelta).sum := by
  unfold getTotalBalance balances
  rw [foldl_add_amount]
  rw [sumAmt_foldExpenses _ _ (by simp)]
  simp [sumAmt]

lemma sum_map_sub {α : Type} (l : List α) (f g : α → Rat) :
    (l.map (fun a => f a - g a)).sum = (l.map f).sum - (l.map g).sum := by
  induction l with
  | nil => simp
  | cons a t ih =>
    simp only [List.map_cons, List.sum_cons, ih]
    ring

lemma sum_indicator (l : List ExpenseParticipant) (c : Rat) (q : ExpenseParticipant → Bool) :
    (l.map (fun p => if q p then c else 0)).sum = (l.countP q : Rat) * c := by
  induction l with
  | nil => simp
  | cons p t ih =>
    by_cases h : q p = true
    · simp only [List.map_cons, List.sum_cons, h, if_true, ih, List.countP_cons, h]
      push_cast
      ring
    · simp only [List.map_cons, List.sum_cons, h, if_false, ih, List.countP_cons, h]
      simp [Bool.of_not_eq_true h]

lemma exAB_balances_sanity :
    lookAmt (balances [exAB]) "a" = -50 ∧ lookAmt (balances [exAB]) "b" = 50 := by
  rw [lookAmt_balances, lookAmt_balances]
  constructor <;>
    norm_num [specNet, expDelta, netDeltaOf, amountPaidOf, exAB, List.filter,
      show ¬("a" : String) = "b" from by decide, show ¬("b" : String) = "a" from by decide]

/-! ## Claim C1 -/

/-- C1: the global balance list has exactly one `Balance` per distinct
participant identifier occurring in some qualifying (unsettled) expense's
participant list, and the amount recorded under each identifier is the
accumulated `netDelta = owedShare − amountPaid`, where `amountPaid` is the
expense's total amount exactly for the payer; settled expenses contribute
nothing (`specNet` sums only over unsettled expenses). -/
theorem global_balances_spec (es : List Expense) :
    ((balances es).map Balance.userId).Nodup ∧
    (∀ uid : String, uid ∈ (balances es).map Balance.userId ↔ appearsIn es uid) ∧
    (∀ uid : String, lookAmt (balances es) uid = specNet es uid) :=
  ⟨nodup_keys_balances es, fun uid => mem_keys_balances es uid,
    fun uid => lookAmt_balances es uid⟩

/-! ## Claim C3 -/

/-- C3 (amended: the payer occurs exactly once among the participants —
for example when participant identifiers are distinct): if the shares sum
to the expense amount, the expense's total contribution to all
participants' net deltas is zero, and so a ledger holding just that
(unsettled) expense has total balance zero. -/
theorem expense_conservation (e : Expense)
    (hsum : (e.participants.map (fun p => p.amount)).sum = e.amount)
    (hpayer : e.participants.countP (fun p => e.paidBy == p.userId) = 1) :
    expenseTotalDelta e = 0 ∧ (e.isSettled = false → getTotalBalance [e] = 0) := by
  have hmain : expenseTotalDelta e = 0 := by
    unfold expenseTotalDelta netDeltaOf amountPaidOf
    rw [sum_map_sub e.participants (fun p => p.amount)
      (fun p => if e.paidBy == p.userId then e.amount else 0)]
    rw [sum_indicator e.participants e.amount (fun p => e.paidBy == p.userId)]
    rw [hsum, hpayer]
    ring
  refine ⟨hmain, fun hset => ?_⟩
  rw [getTotalBalance_eq]
  simp [List.filter, hset, hmain]

lemma exAB_shares_sum : (exAB.participants.map (fun p => p.amount)).sum = exAB.amount := by
  norm_num [exAB]

/-- Witness for C3 at the 50/50 fixture. -/
theorem expense_conservation_witness :
    ((exAB.participants.map (fun p => p.amount)).sum = exAB.amount ∧
      exAB.participants.countP (fun p => exAB.paidBy == p.userId) = 1) ∧
    (expenseTotalDelta exAB = 0 ∧ getTotalBalance [exAB] = 0) :=
  ⟨⟨exAB_shares_sum, by decide⟩,
    ⟨(expense_conservation exAB exAB_shares_sum (by decide)).1,
      (expense_conservation exAB exAB_shares_sum (by decide)).2 (by decide)⟩⟩

/-- C3 as literally stated is false: with the payer merely required to
appear among the participants, an expense listing the payer twice (shares
5 + 5 = amount 10) contributes −10, not 0. -/
theorem expense_conservation_counterexample :
    ((exDupPayer.participants.map (fun p => p.amount)).sum = exDupPayer.amount) ∧
    (∃ p ∈ exDupPayer.participants, p.userId = exDupPayer.paidBy) ∧
    expenseTotalDelta exDupPayer = -10 ∧ expenseTotalDelta exDupPayer ≠ 0 := by
  refine ⟨by norm_num [exDupPayer], ?_, ?_, ?_⟩
  · exact ⟨{ userId := "x", name := "X", amount := 5, isSettled := false },
      by simp [exDupPayer], rfl⟩
  · norm_num [exDupPayer, expenseTotalDelta, netDeltaOf, amountPaidOf]
  · norm_num [exDupPayer, expenseTotalDelta, netDeltaOf, amountPaidOf]

/-! ## Claim C2 -/

lemma filter_unsettled_append (es : List Expense) (e : Expense) (h : e.isSettled = true) :
    (es ++ [e]).filter (fun e => !e.isSettled) = es.filter (fun e => !e.isSettled) := by
  rw [List.filter_append]
  simp [List.filter, h]

lemma settlementExpenseOf_isSettled (st : AppState) (groupId fromUserId toUserId : String)
    (amount : Rat) (newId : String) (now : Nat) :
    (settlementExpenseOf st groupId fromUserId toUserId amount newId now).isSettled = true :=
  rfl

/-- C2 amended: pairwise settlement leaves every recomputed global
balance exactly unchanged — the synthesized settlement expense is created
with its settled flag true, so the settled-exclusive balance computation
ignores it entirely. -/
theorem settleBetweenUsers_balances_unchanged (st : AppState)
    (groupId fromUserId toUserId : String) (amount : Rat) (newId : String) (now : Nat) :
    balances ((settleBetweenUsers st groupId fromUserId toUserId amount newId now).expenses) =
      balances st.expenses := by
  unfold settleBetweenUsers addExpense balances
  rw [filter_unsettled_append _ _ (settlementExpenseOf_isSettled st groupId fromUserId
    toUserId amount newId now)]

/-- C2 as stated is false: in the fixture state Xavier owes 5, yet after
settling 5 from Xavier to Yara his recomputed balance is still 5, not
5 − 5 = 0. -/
theorem settleBetweenUsers_shift_counterexample :
    lookAmt (balances stYX.expenses) "x" = 5 ∧
    lookAmt (balances ((settleBetweenUsers stYX "g" "x" "y" 5 "s1" 1).expenses)) "x" = 5 ∧
    ¬ lookAmt (balances ((settleBetweenUsers stYX "g" "x" "y" 5 "s1" 1).expenses)) "x" =
        lookAmt (balances stYX.expenses) "x" - 5 := by
  have h1 : lookAmt (balances stYX.expenses) "x" = 5 := by
    rw [lookAmt_balances]
    norm_num [specNet, expDelta, netDeltaOf, amountPaidOf, stYX, exYX, List.filter,
      show ¬("y" : String) = "x" from by decide]
  have h2 : lookAmt (balances ((settleBetweenUsers stYX "g" "x" "y" 5 "s1" 1).expenses)) "x"
      = 5 := by
    rw [lookAmt_balances]
    norm_num [specNet, expDelta, netDeltaOf, amountPaidOf, stYX, exYX, settleBetweenUsers,
      addExpense, settlementExpenseOf, jsOrStr, List.filter,
      show ¬("y" : String) = "x" from by decide]
  refine ⟨h1, h2, ?_⟩
  rw [h1, h2]
  norm_num

/-! ## Claim C5 -/

lemma settleGroup_all_settled (es : List Expense) (gid : String) (now : Nat) :
    ∀ x ∈ settleGroup es gid now, x.groupId = some gid → x.isSettled = true := by
  intro x hx
  unfold settleGroup at hx
  rcases List.mem_map.mp hx with ⟨e, he, rfl⟩
  by_cases hc : (groupExpenseIds es gid).contains e.id = true
  · rw [if_pos hc]
    intro _
    rfl
  · rw [if_neg hc]
    intro hgl
    by_contra hset
    apply hc
    have hmem : e.id ∈ groupExpenseIds es gid := by
      unfold groupExpenseIds
      refine List.mem_map.mpr ⟨e, List.mem_filter.mpr ⟨he, ?_⟩, rfl⟩
      simp [hgl, Bool.of_not_eq_true hset]
    simpa using hmem

lemma settleGroup_of_no_unsettled (es : List Expense) (gid : String) (now : Nat)
    (h : ∀ e ∈ es, e.groupId = some gid → e.isSettled = true) :
    settleGroup es gid now = es := by
  unfold settleGroup
  have hfil : es.filter (fun e => e.groupId == some gid && !e.isSettled) = [] := by
    rw [List.filter_eq_nil_iff]
    intro e he
    by_cases hgl : e.groupId = some gid
    · simp [hgl, h e he hgl]
    · simp [hgl]
  have hids : groupExpenseIds es gid = [] := by
    unfold groupExpenseIds
    rw [hfil]
    rfl
  rw [hids]
  have : ∀ e ∈ es,
      (if ([] : List String).contains e.id then
        ({ e with isSettled := true, updatedAt := now } : Expense) else e) = e := by
    intro e _
    simp [List.contains]
  calc es.map _ = es.map id := List.map_congr_left this
  _ = es := List.map_id es

/-- C5: bulk group settlement is idempotent — a second run selects no
expense (all the group's expenses are settled after the first run) and
changes nothing, and running it on a group whose expenses are already all
settled returns the store unchanged. -/
theorem settleGroup_idempotent (es : List Expense) (gid : String) (t1 t2 : Nat) :
    settleGroup (settleGroup es gid t1) gid t2 = settleGroup es gid t1 ∧
    ((∀ e ∈ es, e.groupId = some gid → e.isSettled = true) →
      settleGroup es gid t1 = es) := by
  constructor
  · exact settleGroup_of_no_unsettled _ gid t2 (settleGroup_all_settled es gid t1)
  · intro h
    exact settleGroup_of_no_unsettled es gid t1 h

/-- Witness for C5: settling the already-settled variant of the fixture
group twice and once agree, and the no-op case holds literally. -/
theorem settleGroup_idempotent_witness :
    settleGroup (settleGroup [exYX] "g" 1) "g" 2 = settleGroup [exYX] "g" 1 ∧
    settleGroup [{ exYX with isSettled := true }] "g" 1 = [{ exYX with isSettled := true }] :=
  ⟨(settleGroup_idempotent [exYX] "g" 1 2).1,
    (settleGroup_idempotent [{ exYX with isSettled := true }] "g" 1 2).2 (by
      intro e he _
      rcases List.mem_singleton.mp he with rfl
      rfl)⟩

/-! ## Claim C6 -/

/-- C6 amended: `settleBetweenUsers` performs no amount validation — even
for a non-positive amount it appends the settlement expense carrying that
amount, so the store is mutated rather than the call being rejected. -/
theorem settleBetweenUsers_no_amount_validation (st : AppState)
    (groupId fromUserId toUserId : String) (amount : Rat) (newId : String) (now : Nat)
    (hamount : amount ≤ 0) :
    (settleBetweenUsers st groupId fromUserId toUserId amount newId now).expenses =
      st.expenses ++ [settlementExpenseOf st groupId fromUserId toUserId amount newId now] ∧
    (settlementExpenseOf st groupId fromUserId toUserId amount newId now).amount = amount :=
  ⟨rfl, rfl⟩

/-- Witness for C6 at a zero amount. -/
theorem settleBetweenUsers_no_amount_validation_witness :
    (0 : Rat) ≤ 0 ∧
    (settleBetweenUsers stYX "g" "x" "y" 0 "s1" 1).expenses =
      stYX.expenses ++ [settlementExpenseOf stYX "g" "x" "y" 0 "s1" 1] :=
  ⟨le_refl 0, (settleBetweenUsers_no_amount_validation stYX "g" "x" "y" 0 "s1" 1 (le_refl 0)).1⟩

/-- C6 as stated is false: a pairwise settlement with amount ≤ 0 is not
rejected — the expense store grows by one settlement record. -/
theorem settleBetweenUsers_nonpositive_counterexample :
    ¬ (settleBetweenUsers stYX "g" "x" "y" 0 "s1" 1).expenses = stYX.expenses := by
  intro h
  have hlen := congrArg List.length h
  simp [settleBetweenUsers, addExpense, stYX] at hlen

/-! ## Claim C4 -/

lemma updateExpenseStore_absent (es : List Expense) (eid : String) (upd : Expense → Expense)
    (h : ∀ e ∈ es, ¬ e.id = eid) : updateExpenseStore es eid upd = es := by
  induction es with
  | nil => rfl
  | cons e rest ih =>
    unfold updateExpenseStore
    rw [if_neg (fun hc => h e (List.mem_cons_self e rest) (eq_of_beq hc))]
    rw [ih (fun x hx => h x (List.mem_cons_of_mem e hx))]

lemma updateGroupStore_absent (gs : List Group) (gid : String) (upd : Group → Group)
    (h : ∀ g ∈ gs, ¬ g.id = gid) : updateGroupStore gs gid upd = gs := by
  induction gs with
  | nil => rfl
  | cons g rest ih =>
    unfold updateGroupStore
    rw [if_neg (fun hc => h g (List.mem_cons_self g rest) (eq_of_beq hc))]
    rw [ih (fun x hx => h x (List.mem_cons_of_mem g hx))]

/-- C4 amended: when the referenced identifier does not resolve, the
expense update, group update, and bulk group settlement complete without
raising any error and leave the stored collections unmodified (silent
no-ops rather than propagated failures); pairwise settlement performs no
resolution check at all — even when the group id resolves to nothing it
still appends its settlement expense, built with fallback display names. -/
theorem notfound_operations_silently_noop :
    (∀ (es : List Expense) (eid : String) (upd : Expense → Expense),
      (∀ e ∈ es, ¬ e.id = eid) → updateExpenseStore es eid upd = es) ∧
    (∀ (gs : List Group) (gid : String) (upd : Group → Group),
      (∀ g ∈ gs, ¬ g.id = gid) → updateGroupStore gs gid upd = gs) ∧
    (∀ (es : List Expense) (gid : String) (now : Nat),
      (∀ e ∈ es, ¬ e.groupId = some gid) → settleGroup es gid now = es) ∧
    (∀ (st : AppState) (groupId fromUserId toUserId : String) (amount : Rat)
        (newId : String) (now : Nat),
      st.groups.find? (fun g => g.id == groupId) = none →
      (settleBetweenUsers st groupId fromUserId toUserId amount newId now).expenses =
        st.expenses ++ [settlementExpenseOf st groupId fromUserId toUserId amount newId now]) := by
  refine ⟨updateExpenseStore_absent, updateGroupStore_absent, ?_, ?_⟩
  · intro es gid now h
    exact settleGroup_of_no_unsettled es gid now (fun e he hgl => absurd hgl (h e he))
  · intro st groupId fromUserId toUserId amount newId now _
    rfl

/-- Witness for C4: concrete silent no-ops and the unconditional append. -/
theorem notfound_operations_silently_noop_witness :
    updateExpenseStore [exYX] "missing" id = [exYX] ∧
    updateGroupStore [grpG] "missing" id = [grpG] ∧
    settleGroup [exYX] "h" 3 = [exYX] ∧
    (settleBetweenUsers stYX "gUnknown" "x" "y" 5 "s3" 1).expenses =
      stYX.expenses ++ [settlementExpenseOf stYX "gUnknown" "x" "y" 5 "s3" 1] :=
  ⟨notfound_operations_silently_noop.1 [exYX] "missing" id (by decide),
    notfound_operations_silently_noop.2.1 [grpG] "missing" id (by decide),
    notfound_operations_silently_noop.2.2.1 [exYX] "h" 3 (by decide),
    notfound_operations_silently_noop.2.2.2 stYX "gUnknown" "x" "y" 5 "s3" 1 rfl⟩

/-- C4 as stated is false: pairwise settlement against an unresolvable
group id neither fails nor leaves the store unmodified — it appends a
settlement expense. -/
theorem notfound_settlement_counterexample :
    stYX.groups.find? (fun g => g.id == "gUnknown") = none ∧
    ¬ (settleBetweenUsers stYX "gUnknown" "x" "y" 5 "s2" 1).expenses = stYX.expenses := by
  refine ⟨rfl, ?_⟩
  intro h
  have hlen := congrArg List.length h
  simp [settleBetweenUsers, addExpense, stYX] at hlen

/-! ## Claim C8 -/

lemma sum_filter_split {α : Type} (l : List α) (p : α → Bool) (f : α → Rat) :
    ((l.filter p).map f).sum + ((l.filter (fun x => !p x)).map f).sum = (l.map f).sum := by
  induction l with
  | nil => simp
  | cons a t ih =>
    by_cases h : p a = true
    · rw [List.filter_cons, List.filter_cons, if_pos h, if_neg (by simp [h])]
      simp only [List.map_cons, List.sum_cons]
      rw [← ih]
      ring
    · rw [List.filter_cons, List.filter_cons, if_neg h,
        if_pos (by simp [Bool.of_not_eq_true h])]
      simp only [List.map_cons, List.sum_cons]
      rw [← ih]
      ring

lemma specNet_split (es : List Expense) (q : Expense → Bool) (uid : String) :
    specNet (es.filter q) uid + specNet (es.filter (fun e => !q e)) uid = specNet es uid := by
  unfold specNet
  rw [show (es.filter q).filter (fun e => !e.isSettled) =
      (es.filter (fun e => !e.isSettled)).filter q from List.filter_comm _ _ _]
  rw [show (es.filter (fun e => !q e)).filter (fun e => !e.isSettled) =
      (es.filter (fun e => !e.isSettled)).filter (fun e => !q e) from List.filter_comm _ _ _]
  exact sum_filter_split (es.filter (fun e => !e.isSettled)) q (fun e => expDelta e uid)

/-- C8: recomputing balances after `deleteExpense` is recomputing over the
list with that id filtered out, each participant's balance loses exactly
the filtered-out expenses' contribution, and `deleteGroup` cascades:
the store afterwards holds exactly the expenses whose group id differs
from the deleted group's, and the group itself is gone. -/
theorem delete_cascade_spec (es : List Expense) (eid : String) (uid : String)
    (st : Store) (gid : String) :
    balances (deleteExpense es eid) = balances (es.filter (fun e => !(e.id == eid))) ∧
    lookAmt (balances (deleteExpense es eid)) uid +
        specNet (es.filter (fun e => e.id == eid)) uid = specNet es uid ∧
    (deleteGroupStore st gid).expenses = st.expenses.filter (fun e => e.groupId != some gid) ∧
    (∀ e ∈ (deleteGroupStore st gid).expenses, ¬ e.groupId = some gid) ∧
    (∀ e ∈ st.expenses, ¬ e.groupId = some gid → e ∈ (deleteGroupStore st gid).expenses) ∧
    (∀ g ∈ (deleteGroupStore st gid).groups, ¬ g.id = gid) := by
  refine ⟨rfl, ?_, rfl, ?_, ?_, ?_⟩
  · rw [lookAmt_balances]
    have : deleteExpense es eid = es.filter (fun e => !(e.id == eid)) := rfl
    rw [this]
    have h := specNet_split es (fun e => e.id == eid) uid
    rw [← h]
    ring
  · intro e he
    rcases List.mem_filter.mp he with ⟨_, hcond⟩
    intro hEq
    rw [hEq] at hcond
    simp at hcond
  · intro e he hne
    refine List.mem_filter.mpr ⟨he, ?_⟩
    simpa using hne
  · intro g hg
    rcases List.mem_filter.mp hg with ⟨_, hcond⟩
    intro hEq
    rw [hEq] at hcond
    simp at hcond

/-- Witness for C8 at the fixture store. -/
theorem delete_cascade_spec_witness :
    balances (deleteExpense [exYX] "e2") = balances ([exYX].filter (fun e => !(e.id == "e2"))) ∧
    lookAmt (balances (deleteExpense [exYX] "e2")) "x" +
        specNet ([exYX].filter (fun e => e.id == "e2")) "x" = specNet [exYX] "x" ∧
    (¬ exYX.groupId = some "g" → False) ∧
    exPersonal ∈ (deleteGroupStore stC8 "g").expenses ∧
    (∀ g ∈ (deleteGroupStore stC8 "g").groups, ¬ g.id = "g") := by
  refine ⟨(delete_cascade_spec [exYX] "e2" "x" stC8 "g").1,
    (delete_cascade_spec [exYX] "e2" "x" stC8 "g").2.1, ?_, ?_, ?_⟩
  · intro h
    exact h rfl
  · exact (delete_cascade_spec [exYX] "e2" "x" stC8 "g").2.2.2.2.1 exPersonal
      (by simp [stC8]) (by decide)
  · exact (delete_cascade_spec [exYX] "e2" "x" stC8 "g").2.2.2.2.2

/-! ## Claim C7 -/

lemma fst_catUpdate (c : String) (a : Rat) (q : String × Rat) :
    ((if q.1 == c then (q.1, q.2 + a) else q) : String × Rat).1 = q.1 := by
  by_cases h : (q.1 == c) = true <;> simp [h]

lemma keys_catStep (acc : List (String × Rat)) (c : String) (a : Rat) :
    (catStep acc c a).map Prod.fst =
      if acc.any (fun q => q.1 == c) then acc.map Prod.fst
      else acc.map Prod.fst ++ [c] := by
  by_cases h : acc.any (fun q => q.1 == c) = true
  · rw [if_pos h]
    unfold catStep
    rw [if_pos h, List.map_map]
    exact List.map_congr_left (fun q _ => fst_catUpdate c a q)
  · rw [if_neg h]
    unfold catStep
    rw [if_neg h]
    simp

lemma mem_keys_catStep (acc : List (String × Rat)) (c : String) (a : Rat) (x : String) :
    x ∈ (catStep acc c a).map Prod.fst ↔ x ∈ acc.map Prod.fst ∨ x = c := by
  rw [keys_catStep]
  by_cases h : acc.any (fun q => q.1 == c) = true
  · rw [if_pos h]
    constructor
    · exact fun hx => Or.inl hx
    · rintro (hx | rfl)
      · exact hx
      · rcases List.any_eq_true.mp h with ⟨q, hq, hqe⟩
        exact List.mem_map.mpr ⟨q, hq, eq_of_beq hqe⟩
  · rw [if_neg h]
    simp

lemma nodup_keys_catStep (acc : List (String × Rat)) (c : String) (a : Rat)
    (h : (acc.map Prod.fst).Nodup) : ((catStep acc c a).map Prod.fst).Nodup := by
  rw [keys_catStep]
  by_cases hany : acc.any (fun q => q.1 == c) = true
  · rwa [if_pos hany]
  · rw [if_neg hany]
    rw [List.nodup_append]
    refine ⟨h, List.nodup_singleton _, ?_⟩
    intro x hx hy
    simp only [List.mem_singleton] at hy
    subst hy
    rcases List.mem_map.mp hx with ⟨q, hq, hqe⟩
    exact hany (List.any_eq_true.mpr ⟨q, hq, beq_iff_eq.mpr hqe⟩)

lemma map_catUpdate_id {t : List (String × Rat)} {c : String} {a : Rat}
    (h : ∀ q ∈ t, ¬ q.1 = c) :
    t.map (fun q => if q.1 == c then (q.1, q.2 + a) else q) = t := by
  have : ∀ q ∈ t, ((if q.1 == c then (q.1, q.2 + a) else q) : String × Rat) = q := by
    intro q hq
    rw [if_neg (fun hc => h q hq (eq_of_beq hc))]
  calc t.map _ = t.map id := List.map_congr_left this
  _ = t := List.map_id t

lemma catTotalSum_update {acc : List (String × Rat)} {c : String} {a : Rat}
    (hnd : (acc.map Prod.fst).Nodup) (hk : c ∈ acc.map Prod.fst) :
    catTotalSum (acc.map (fun q => if q.1 == c then (q.1, q.2 + a) else q)) =
      catTotalSum acc + a := by
  induction acc with
  | nil => simp at hk
  | cons q t ih =>
    have hnd' : (t.map Prod.fst).Nodup := (List.nodup_cons.mp hnd).2
    by_cases hq : q.1 = c
    · have hnot : ∀ r ∈ t, ¬ r.1 = c := by
        intro r hr hrc
        apply (List.nodup_cons.mp hnd).1
        rw [hq, ← hrc]
        exact List.mem_map.mpr ⟨r, hr, rfl⟩
      simp only [List.map_cons]
      rw [if_pos (beq_iff_eq.mpr hq), map_catUpdate_id hnot]
      unfold catTotalSum
      simp
      ring
    · have hk' : c ∈ t.map Prod.fst := by
        rcases (by simpa using hk : c = q.1 ∨ ∃ r ∈ t, r.1 = c) with h | ⟨r, hr, hrc⟩
        · exact absurd h.symm hq
        · exact List.mem_map.mpr ⟨r, hr, hrc⟩
      simp only [List.map_cons]
      rw [if_neg (fun hb => hq (eq_of_beq hb))]
      unfold catTotalSum at ih ⊢
      simp only [List.map_cons, List.sum_cons]
      rw [ih hnd' hk']
      ring

lemma catTotalSum_catStep (acc : List (String × Rat)) (c : String) (a : Rat)
    (hnd : (acc.map Prod.fst).Nodup) :
    catTotalSum (catStep acc c a) = catTotalSum acc + a := by
  unfold catStep
  by_cases hany : acc.any (fun q => q.1 == c) = true
  · rw [if_pos hany]
    rcases List.any_eq_true.mp hany with ⟨q, hq, hqe⟩
    exact catTotalSum_update hnd (List.mem_map.mpr ⟨q, hq, eq_of_beq hqe⟩)
  · rw [if_neg hany]
    unfold catTotalSum
    simp

lemma nodup_keys_catFold (es : List Expense) (acc : List (String × Rat))
    (h : (acc.map Prod.fst).Nodup) :
    ((es.foldl (fun acc e => catStep acc e.category e.amount) acc).map Prod.fst).Nodup := by
  induction es generalizing acc with
  | nil => exact h
  | cons e es ih =>
    simp only [List.foldl_cons]
    exact ih _ (nodup_keys_catStep acc e.category e.amount h)

lemma catTotalSum_catFold (es : List Expense) (acc : List (String × Rat))
    (hnd : (acc.map Prod.fst).Nodup) :
    catTotalSum (es.foldl (fun acc e => catStep acc e.category e.amount) acc) =
      catTotalSum acc + (es.map (fun e => e.amount)).sum := by
  induction es generalizing acc with
  | nil => simp
  | cons e es ih =>
    simp only [List.foldl_cons, List.map_cons, List.sum_cons]
    rw [ih _ (nodup_keys_catStep acc e.category e.amount hnd)]
    rw [catTotalSum_catStep acc e.category e.amount hnd]
    ring

lemma mem_keys_catFold (es : List Expense) (acc : List (String × Rat)) (x : String) :
    x ∈ (es.foldl (fun acc e => catStep acc e.category e.amount) acc).map Prod.fst ↔
      x ∈ acc.map Prod.fst ∨ ∃ e ∈ es, e.category = x := by
  induction es generalizing acc with
  | nil => simp
  | cons e es ih =>
    simp only [List.foldl_cons]
    rw [ih, mem_keys_catStep]
    constructor
    · rintro ((h | h) | ⟨f, hf, hfx⟩)
      · exact Or.inl h
      · exact Or.inr ⟨e, List.mem_cons_self e es, h.symm⟩
      · exact Or.inr ⟨f, List.mem_cons_of_mem e hf, hfx⟩
    · rintro (h | ⟨f, hf, hfx⟩)
      · exact Or.inl (Or.inl h)
      · rcases List.mem_cons.mp hf with rfl | hf'
        · exact Or.inl (Or.inr hfx.symm)
        · exact Or.inr ⟨f, hf', hfx⟩

lemma catTotalSum_global (es : List Expense) :
    catTotalSum (getExpensesByCategory es) = (es.map (fun e => e.amount)).sum := by
  unfold getExpensesByCategory
  rw [catTotalSum_catFold es [] (by simp)]
  simp [catTotalSum]

/-- C7: the global per-category totals sum to the group-scoped totals
plus the personal-scoped totals (the two views partition the expenses by
truthiness of the group identifier), and in each view a category key is
present exactly when some qualifying expense carries it. -/
theorem category_views_spec (es : List Expense) :
    catTotalSum (getExpensesByCategory es) =
      catTotalSum (getGroupExpensesByCategory es) +
        catTotalSum (getPersonalExpensesByCategory es) ∧
    (∀ c : String,
      c ∈ (getExpensesByCategory es).map Prod.fst ↔ ∃ e ∈ es, e.category = c) ∧
    (∀ c : String,
      c ∈ (getGroupExpensesByCategory es).map Prod.fst ↔
        ∃ e ∈ es, jsTruthy e.groupId = true ∧ e.category = c) ∧
    (∀ c : String,
      c ∈ (getPersonalExpensesByCategory es).map Prod.fst ↔
        ∃ e ∈ es, jsTruthy e.groupId = false ∧ e.category = c) := by
  refine ⟨?_, ?_, ?_, ?_⟩
  · unfold getExpensesByCategory getGroupExpensesByCategory getPersonalExpensesByCategory
    rw [catTotalSum_catFold es [] (by simp),
      catTotalSum_catFold (es.filter (fun e => jsTruthy e.groupId)) [] (by simp),
      catTotalSum_catFold (es.filter (fun e => !jsTruthy e.groupId)) [] (by simp)]
    simp only [catTotalSum, List.map_nil, List.sum_nil, zero_add]
    rw [← sum_filter_split es (fun e => jsTruthy e.groupId) (fun e => e.amount)]
  · intro c
    unfold getExpensesByCategory
    rw [mem_keys_catFold]
    simp
  · intro c
    unfold getGroupExpensesByCategory
    rw [mem_keys_catFold]
    simp only [List.map_nil, List.not_mem_nil, false_or]
    constructor
    · rintro ⟨e, he, hc⟩
      rcases List.mem_filter.mp he with ⟨he', ht⟩
      exact ⟨e, he', ht, hc⟩
    · rintro ⟨e, he, ht, hc⟩
      exact ⟨e, List.mem_filter.mpr ⟨he, ht⟩, hc⟩
  · intro c
    unfold getPersonalExpensesByCategory
    rw [mem_keys_catFold]
    simp only [List.map_nil, List.not_mem_nil, false_or]
    constructor
    · rintro ⟨e, he, hc⟩
      rcases List.mem_filter.mp he with ⟨he', ht⟩
      refine ⟨e, he', ?_, hc⟩
      simpa using ht
    · rintro ⟨e, he, ht, hc⟩
      refine ⟨e, List.mem_filter.mpr ⟨he, ?_⟩, hc⟩
      simp [ht]

/-! ## Claim C10 -/

/-- C10: the global balance list holds at most one entry per participant
identifier, and the name under each identifier is the snapshot stored on
the first qualifying (unsettled) expense-participant occurrence in
expense-list order; later occurrences never change it. -/
theorem balance_names_first_snapshot (es : List Expense) :
    ((balances es).map Balance.userId).Nodup ∧
    (∀ uid : String, lookName (balances es) uid = firstNameFor es uid) :=
  ⟨nodup_keys_balances es, fun uid => lookName_balances es uid⟩

/-! ## Claim C9 -/

/-- C9: on a custom-split save whose other validations pass, a split
whose shares sum to within 0.01 (absolute, inclusive) of the declared
amount is accepted — exactly one expense record is appended — and a split
differing by more than 0.01 is rejected with the expense store left
unchanged. -/
theorem custom_split_epsilon (es : List Expense) (inp : SaveInput)
    (avail : List (String × String)) (currentUserId newId : String) (now : Nat)
    (htitle : ¬ jsTrim inp.title = "")
    (hamt : 0 < inp.amount)
    (hparts : jsTruthy inp.selectedGroup = true → ¬ inp.participants = [])
    (hcustom : inp.splitType = SplitType.custom)
    (hmissing : inp.participants.filter
      (fun pid => !(inp.customSplits.any (fun s => s.participantId == pid))) = []) :
    (|(inp.customSplits.map (fun s => s.amount)).sum - inp.amount| ≤ (1:Rat)/100 →
      (handleSave es inp avail currentUserId newId now).length = es.length + 1) ∧
    ((1:Rat)/100 < |(inp.customSplits.map (fun s => s.amount)).sum - inp.amount| →
      handleSave es inp avail currentUserId newId now = es) := by
  have h1 : ¬ (jsTrim inp.title == "") = true := fun h => htitle (eq_of_beq h)
  have h2 : ¬ inp.amount ≤ 0 := not_le.mpr hamt
  have h3 : ¬ (jsTruthy inp.selectedGroup && inp.participants.isEmpty) = true := by
    intro hc
    rw [Bool.and_eq_true] at hc
    rcases hc with ⟨hg, hE⟩
    exact hparts hg (by simpa using hE)
  have h5 : ¬ ((inp.splitType == SplitType.custom) &&
      !(inp.participants.filter
        (fun pid => !(inp.customSplits.any (fun s => s.participantId == pid)))).isEmpty)
      = true := by
    intro hc
    rw [Bool.and_eq_true] at hc
    rcases hc with ⟨_, hne⟩
    rw [hmissing] at hne
    simp at hne
  constructor
  · intro hle
    have h4 : ¬ ((inp.splitType == SplitType.custom) &&
        decide ((1 : Rat)/100 < |(inp.customSplits.map (fun s => s.amount)).sum - inp.amount|))
        = true := by
      intro hc
      rw [Bool.and_eq_true] at hc
      rcases hc with ⟨_, hd⟩
      exact absurd (of_decide_eq_true hd) (not_lt.mpr hle)
    unfold handleSave
    rw [if_neg h1, if_neg h2, if_neg h3, if_neg h4, if_neg h5]
    simp
  · intro hgt
    have h4 : ((inp.splitType == SplitType.custom) &&
        decide ((1 : Rat)/100 < |(inp.customSplits.map (fun s => s.amount)).sum - inp.amount|))
        = true := by
      rw [Bool.and_eq_true]
      exact ⟨beq_iff_eq.mpr hcustom, decide_eq_true hgt⟩
    unfold handleSave
    rw [if_neg h1, if_neg h2, if_neg h3, if_pos h4]

/-- Witness for C9 at the spec's two scenarios: shares 99.995 against
100.00 accepted, shares 95.00 against 100.00 rejected. -/
theorem custom_split_epsilon_witness :
    (|(inp995.customSplits.map (fun s => s.amount)).sum - inp995.amount| ≤ (1:Rat)/100 ∧
      (1:Rat)/100 < |(inp95.customSplits.map (fun s => s.amount)).sum - inp95.amount|) ∧
    (handleSave [] inp995 [("x", "Xavier")] "u" "n1" 0).length = 0 + 1 ∧
    handleSave [] inp95 [("x", "Xavier")] "u" "n2" 0 = [] := by
  have hin : |(inp995.customSplits.map (fun s => s.amount)).sum - inp995.amount| ≤ (1:Rat)/100 := by
    rw [abs_le]
    norm_num [inp995]
  have hout : (1:Rat)/100 < |(inp95.customSplits.map (fun s => s.amount)).sum - inp95.amount| := by
    rw [lt_abs]
    norm_num [inp95]
  refine ⟨⟨hin, hout⟩, ?_, ?_⟩
  · exact (custom_split_epsilon [] inp995 [("x", "Xavier")] "u" "n1" 0
      (by decide) (by norm_num [inp995]) (fun _ => by decide) rfl (by decide)).1 hin
  · exact (custom_split_epsilon [] inp95 [("x", "Xavier")] "u" "n2" 0
      (by decide) (by norm_num [inp95]) (fun _ => by decide) rfl (by decide)).2 hout

end SplitwisePro
